import Mathlib

/-
Verification of the audio-analysis and preset-control core of the
visualization.matrix Kodi addon (src/main.cpp), as a shallow embedding.

Machine floats are modelled as rationals where the code only adds,
multiplies and divides, and as reals where it takes logarithms, square
roots or trigonometric functions.  C style arrays handed around through
pointers are modelled as total functions from indices, mutated through
Function.update; the pointer arithmetic of the call sites is modelled by
an explicit destination offset.  The unsigned conversion that C++ applies
when an int meets a size_t operand (in the preset index arithmetic) is
modelled explicitly modulo 2 to the 64.
-/

namespace VisMatrix

/-- AUDIO_BUFFER from main.cpp: the ring capacity N. -/
def AUDIO_BUFFER : ℕ := 1024

/-- NUM_BANDS from main.cpp: N / 2. -/
def NUM_BANDS : ℕ := AUDIO_BUFFER / 2

/-- The average the inner loop of CVisualizationMatrix::Mix accumulates for
the frame starting at interleaved index j * channels:
v = sum of source[i + 0] .. source[i + channels - 1], divided by channels. -/
def frameAverage (channels : ℕ) (source : ℕ → ℚ) (j : ℕ) : ℚ :=
  (∑ k ∈ Finset.range channels, source (j * channels + k)) / (channels : ℚ)

/-- CVisualizationMatrix::Mix.  The loop runs i = 0, channels, 2*channels, ...
while i < frames * channels and writes destination[(i / 2)] = v / channels.
With i = j * channels the written index is (j * channels) / 2 (integer
division), NOT j = i / channels.  destOff models the pointer the call site
passes (m_pcm or m_pcm + keep). -/
def mix (dest : ℕ → ℚ) (destOff : ℕ) (source : ℕ → ℚ) (frames channels : ℕ) : ℕ → ℚ :=
  (List.range frames).foldl
    (fun d j => Function.update d (destOff + j * channels / 2) (frameAverage channels source j))
    dest

/-- CVisualizationMatrix::WriteToBuffer.  frames = length / channels; if
frames >= AUDIO_BUFFER the code mixes AUDIO_BUFFER frames starting from the
float pointer input + offset with offset = frames - AUDIO_BUFFER (an offset
counted in frames but applied in floats); otherwise it memmoves the last
keep = AUDIO_BUFFER - frames ring samples to the front and mixes the new
frames behind them. -/
def writeToBuffer (pcm : ℕ → ℚ) (input : ℕ → ℚ) (length channels : ℕ) : ℕ → ℚ :=
  let frames := length / channels
  if AUDIO_BUFFER ≤ frames then
    let offset := frames - AUDIO_BUFFER
    mix pcm 0 (fun k => input (offset + k)) AUDIO_BUFFER channels
  else
    let keep := AUDIO_BUFFER - frames
    let moved : ℕ → ℚ := fun k => if k < keep then pcm (k + frames) else pcm k
    mix moved keep input frames channels

/-- Spec side definition, from the words of the spec: the down-mixed mono
frame m of an interleaved input is the average of its channels, and after a
large chunk the ring should hold the most recent AUDIO_BUFFER such frames
in temporal order: ring slot j should be mono frame (frames - 1024 + j). -/
def specRecentDownmix (input : ℕ → ℚ) (frames channels : ℕ) (j : ℕ) : ℚ :=
  (∑ k ∈ Finset.range channels,
      input ((frames - AUDIO_BUFFER + j) * channels + k)) / (channels : ℚ)

/-- All-zero rational buffer, used as a concrete ring state. -/
def zeroBufQ : ℕ → ℚ := fun _ => 0

/-- The buffer whose sample at index k is the rational k, used as a
concrete input chunk. -/
def idBufQ : ℕ → ℚ := fun k => (k : ℚ)

/-- The preset catalog entry type of main.cpp (struct Preset): a name, a
shader file and four channel tags. -/
structure Preset where
  name : String
  file : String
  channel : Fin 4 → ℤ

/-- First catalog entry of g_presets in main.cpp. -/
def presetKodi : Preset := ⟨"Kodi", "kodi.frag.glsl", ![99, 0, 1, -1]⟩

/-- Second catalog entry of g_presets in main.cpp. -/
def presetAlbum : Preset := ⟨"Album", "album.frag.glsl", ![99, 0, 1, 2]⟩

/-- g_presets from main.cpp. -/
def g_presets : List Preset := [presetKodi, presetAlbum]

/-- g_fileTextures from main.cpp. -/
def g_fileTextures : List String := ["logo.png", "noise.png", "album.png"]

/-- In C++ the expression x % g_presets.size() converts the int x to the
unsigned 64 bit size_t before dividing, so the result is the remainder of
(x mod 2 to the 64) by n, always nonnegative. -/
def cppSizeTMod (x : ℤ) (n : ℕ) : ℤ :=
  (((x % ((2 : ℤ) ^ 64)).toNat % n : ℕ) : ℤ)

/-- The part of the addon state the preset controller claims are about:
the ownshader setting fixed at construction, the current preset index, the
initialized flag set by Start, and counters for probe executions and
rendered frames. -/
structure VisState where
  settingsUseOwnshader : Bool
  currentPreset : ℤ
  initialized : Bool
  probeRuns : ℕ
  framesRendered : ℕ
deriving DecidableEq

/-- CVisualizationMatrix::Launch begins by running DetermineBitsPrecision
(the time-precision probe), unconditionally, on every call. -/
def launch (s : VisState) : VisState :=
  { s with probeRuns := s.probeRuns + 1 }

/-- The host-facing entry points the temporal claims quantify over. -/
inductive Event
  | start
  | nextPreset
  | prevPreset
  | loadPreset (select : ℤ)
  | renderFrame
  | stop
deriving DecidableEq

/-- One host call, mirroring the bodies of Start, NextPreset, PrevPreset,
LoadPreset(int), Render and Stop in main.cpp.  The preset index arithmetic
uses the unsigned size_t modulo of the C++ source. -/
def stepEvent (s : VisState) : Event → VisState
  | .start => let s1 := launch s; { s1 with initialized := true }
  | .nextPreset =>
      if s.settingsUseOwnshader then s
      else launch { s with currentPreset := cppSizeTMod (s.currentPreset + 1) g_presets.length }
  | .prevPreset =>
      if s.settingsUseOwnshader then s
      else launch { s with currentPreset := cppSizeTMod (s.currentPreset - 1) g_presets.length }
  | .loadPreset select =>
      if s.settingsUseOwnshader then s
      else launch { s with currentPreset := cppSizeTMod select g_presets.length }
  | .renderFrame =>
      if s.initialized then { s with framesRendered := s.framesRendered + 1 } else s
  | .stop => { s with initialized := false }

/-- Folding a list of host calls over the state. -/
def runEvents (s : VisState) (evs : List Event) : VisState :=
  evs.foldl stepEvent s

/-- How many times a single host call makes Launch (and with it the
precision probe) run: Start always launches; the three preset switches
launch unless the user configured an own shader; rendering and stopping
never launch. -/
def launchCount (own : Bool) : Event → ℕ
  | .start => 1
  | .nextPreset => if own then 0 else 1
  | .prevPreset => if own then 0 else 1
  | .loadPreset _ => if own then 0 else 1
  | _ => 0

/-- The state right before Start, for a session whose ownshader setting is
off and whose persisted preset index is 0. -/
def initialState : VisState :=
  { settingsUseOwnshader := false, currentPreset := 0, initialized := false
    probeRuns := 0, framesRendered := 0 }

/-- The elapsed-time wrap in CVisualizationMatrix::RenderTo: when the
calibrated bit width is nonzero the millisecond count is masked with
(1 shifted left bits) - 1 before use. -/
def wrapTime (elapsedMs : ℕ) (bits : ℕ) : ℕ :=
  if bits ≠ 0 then elapsedMs &&& (2 ^ bits - 1) else elapsedMs

/-- The clamp in CVisualizationMatrix::Launch:
m_bitsPrecision = max(DetermineBitsPrecision(), 13). -/
def launchBitsPrecision (probe : ℕ) : ℕ := max probe 13

/-- The time value pushed to the shader: wrapped milliseconds divided by
1000 (float t = intt / 1000.0f). -/
def shaderTime (elapsedMs : ℕ) (bits : ℕ) : ℚ :=
  ((wrapTime elapsedMs bits : ℕ) : ℚ) / 1000

/-- MIN_DECIBELS from main.cpp. -/
noncomputable def MIN_DECIBELS : ℝ := -100

/-- MAX_DECIBELS from main.cpp. -/
noncomputable def MAX_DECIBELS : ℝ := -30

/-- CVisualizationMatrix::LinearToDecibels: -1000 for a zero input, else
20 * log10(linear). -/
noncomputable def linearToDecibels (linear : ℝ) : ℝ :=
  if linear = 0 then -1000 else 20 * Real.logb 10 linear

/-- The C cast (int)x on a real value: truncation toward zero. -/
noncomputable def cTruncToInt (x : ℝ) : ℤ :=
  if 0 ≤ x then ⌊x⌋ else ⌈x⌉

/-- The per-bin byte computation of the spectrum loop in
CVisualizationMatrix::AudioData: dbMag is MIN_DECIBELS for a zero smoothed
magnitude and LinearToDecibels otherwise; scaledValue rescales the decibel
range to 0..255; the store is max(min((int)scaledValue, 255), 0). -/
noncomputable def scaledSpectrumByte (linearValue : ℝ) : ℤ :=
  let rangeScaleFactor : ℝ := 1 / (MAX_DECIBELS - MIN_DECIBELS)
  let dbMag : ℝ := if linearValue = 0 then MIN_DECIBELS else linearToDecibels linearValue
  let scaledValue : ℝ := 255 * (dbMag - MIN_DECIBELS) * rangeScaleFactor
  max (min (cTruncToInt scaledValue) 255) 0

/-- The decibel value the spec attributes to a smoothed magnitude: a floor
of -100 dB at zero, else 20 * log10. -/
noncomputable def specDb (m : ℝ) : ℝ :=
  if m = 0 then -100 else 20 * Real.logb 10 m

/-- The byte map as the spec words it: clamp the decibels to the range
-100 .. -30, rescale that range linearly to 0 .. 255, round to the nearest
integer, clamp to 0 .. 255. -/
noncomputable def specScaledByteRound (m : ℝ) : ℤ :=
  max 0 (min 255 (round ((max (-100) (min (-30) (specDb m)) - (-100)) * 255 / 70)))

/-- The byte map of the spec with the rounding step replaced by the C
truncation toward zero that the code actually performs. -/
noncomputable def specScaledByteTrunc (m : ℝ) : ℤ :=
  max 0 (min 255 (cTruncToInt ((max (-100) (min (-30) (specDb m)) - (-100)) * 255 / 70)))

/-- CVisualizationMatrix::BlackmanWindow. -/
noncomputable def blackmanWindow (inp : ℝ) (i length : ℕ) : ℝ :=
  let alpha : ℝ := 0.16
  let a0 : ℝ := 0.5 * (1 - alpha)
  let a1 : ℝ := 0.5
  let a2 : ℝ := 0.5 * alpha
  let x : ℝ := (i : ℝ) / (length : ℝ)
  inp * (a0 - a1 * Real.cos (2 * Real.pi * x) + a2 * Real.cos (4 * Real.pi * x))

/-- The forward discrete Fourier transform that kiss_fft (allocated with
inverse = 0) computes on the real windowed input. -/
noncomputable def dft (x : ℕ → ℝ) (N : ℕ) (k : ℕ) : ℂ :=
  ∑ j ∈ Finset.range N,
    (x j : ℂ) * Complex.exp (-(2 * Real.pi * Complex.I * j * k) / N)

/-- CVisualizationMatrix::SmoothingOverTime, pointwise: the new value at
bin i is c * last[i] + (1 - c) * sqrt(re * re + im * im) / fftSize. -/
noncomputable def smoothingOverTime (lastOutputBuffer : ℕ → ℝ) (inputBuffer : ℕ → ℂ)
    (smoothingTimeConstant : ℝ) (fftSize : ℕ) (i : ℕ) : ℝ :=
  smoothingTimeConstant * lastOutputBuffer i
    + (1 - smoothingTimeConstant)
      * (Real.sqrt ((inputBuffer i).re * (inputBuffer i).re
          + (inputBuffer i).im * (inputBuffer i).im) / (fftSize : ℝ))

/-- The transform bins as AudioData prepares them: the DFT of the windowed
ring, with the imaginary part of bin 0 cleared (out[0].i = 0). -/
noncomputable def audioDataBins (pcm : ℕ → ℝ) (k : ℕ) : ℂ :=
  if k = 0 then
    ⟨(dft (fun i => blackmanWindow (pcm i) i AUDIO_BUFFER) AUDIO_BUFFER k).re, 0⟩
  else dft (fun i => blackmanWindow (pcm i) i AUDIO_BUFFER) AUDIO_BUFFER k

/-- The smoothed magnitude AudioData stores for bin k: SmoothingOverTime
with c = SMOOTHING_TIME_CONSTANT = 0.5 and fftSize = AUDIO_BUFFER. -/
noncomputable def audioDataSmoothed (prev : ℕ → ℝ) (pcm : ℕ → ℝ) (k : ℕ) : ℝ :=
  smoothingOverTime prev (audioDataBins pcm) 0.5 AUDIO_BUFFER k

/-- All-zero real buffer, used as a concrete previous spectrum and ring. -/
def zeroBufR : ℕ → ℝ := fun _ => 0

/-- The all-zero ring after windowing, used as a concrete transform
input. -/
noncomputable def zeroWindowed : ℕ → ℝ := fun i => blackmanWindow (zeroBufR i) i AUDIO_BUFFER

/-- The outside world of UpdateAlbumart: whether the png and jpg thumbnail
candidates exist, and what CreateTexture would return for each (0 when the
image cannot be decoded). -/
structure AlbumArtEnv where
  pngExists : Bool
  jpgExists : Bool
  pngLoad : ℕ
  jpgLoad : ℕ
deriving DecidableEq

/-- CVisualizationMatrix::UpdateAlbumart: overwrite slot 3 with the load
result of the png if it exists, else of the jpg if it exists, else leave
the slot; then return false exactly when the slot ends up 0. -/
def updateAlbumart (env : AlbumArtEnv) (slot3 : ℕ) : ℕ × Bool :=
  let newSlot :=
    if env.pngExists then env.pngLoad
    else if env.jpgExists then env.jpgLoad
    else slot3
  (newSlot, newSlot != 0)

/-- The per-channel shader texture descriptor of main.h as Launch uses it:
the audio flag and the file path. -/
structure ShaderTexture where
  audio : Bool
  texture : String
deriving DecidableEq

/-- What a channel texture is created from after Launch. -/
inductive TexSource
  | audioData
  | file (path : String)
  | empty
  | framebufferAttachment
deriving DecidableEq

/-- The channel-descriptor loop of Launch for a catalog preset: a tag in
0 .. 2 selects a file texture (leaving the audio flag alone), the tag 99
sets the audio flag (leaving the path alone), anything else clears both. -/
def launchShaderTextures (p : Preset) (prev : Fin 4 → ShaderTexture) :
    Fin 4 → ShaderTexture :=
  fun i =>
    if 0 ≤ p.channel i ∧ p.channel i < (g_fileTextures.length : ℤ) then
      { prev i with texture := "resources/" ++ g_fileTextures.getD (p.channel i).toNat "" }
    else if p.channel i = 99 then
      { prev i with audio := true }
    else
      { audio := false, texture := "" }

/-- What Launch then creates each channel texture from: channel 0 is
always created from m_audioData; channels 1 to 3 are created from their
file when the path is nonempty and stay empty otherwise (UnloadTextures
has just zeroed every handle).  No branch attaches the offscreen
framebuffer texture to a channel. -/
def launchChannelTexSource (st : Fin 4 → ShaderTexture) : Fin 4 → TexSource :=
  fun i =>
    if i = 0 then TexSource.audioData
    else if (st i).texture ≠ "" then TexSource.file ((st i).texture)
    else TexSource.empty

/-- The upload step of RenderTo: when an analysis buffer is pending, every
channel whose audio flag is set gets its texture re-filled from
m_audioData. -/
def renderUploadsAudio (st : Fin 4 → ShaderTexture) (i : Fin 4) : Bool :=
  (st i).audio

/-- The texture the display pass samples: the offscreen framebuffer
attachment, bound on unit 0 of the display program only. -/
def displayPassSource : TexSource := TexSource.framebufferAttachment

/-- Default all-clear shader texture state. -/
def clearShaderTextures : Fin 4 → ShaderTexture := fun _ => ⟨false, ""⟩

lemma mix_zero (dest : ℕ → ℚ) (destOff : ℕ) (source : ℕ → ℚ) (channels : ℕ) :
    mix dest destOff source 0 channels = dest := rfl

lemma mix_succ (dest : ℕ → ℚ) (destOff : ℕ) (source : ℕ → ℚ) (frames channels : ℕ) :
    mix dest destOff source (frames + 1) channels
      = Function.update (mix dest destOff source frames channels)
          (destOff + frames * channels / 2) (frameAverage channels source frames) := by
  unfold mix
  rw [List.range_succ, List.foldl_append]
  rfl

/-- For two channels, frame j lands at destination index destOff + j, so the
mixed block is exactly frames consecutive frame averages. -/
lemma mix_two_apply (dest : ℕ → ℚ) (destOff : ℕ) (source : ℕ → ℚ)
    (frames : ℕ) (t : ℕ) :
    mix dest destOff source frames 2 t
      = if destOff ≤ t ∧ t < destOff + frames then frameAverage 2 source (t - destOff)
        else dest t := by
  induction frames with
  | zero =>
      rw [mix_zero, if_neg (by omega)]
  | succ n ih =>
      rw [mix_succ]
      have hidx : destOff + n * 2 / 2 = destOff + n := by omega
      rw [hidx]
      rcases eq_or_ne t (destOff + n) with h | h
      · subst h
        rw [Function.update_same]
        have : destOff ≤ destOff + n ∧ destOff + n < destOff + (n + 1) := by omega
        rw [if_pos this]
        congr 1
        omega
      · rw [Function.update_noteq h, ih]
        by_cases hin : destOff ≤ t ∧ t < destOff + n
        · rw [if_pos hin, if_pos (by omega)]
        · rw [if_neg hin, if_neg (by omega)]

lemma frameAverage_two (source : ℕ → ℚ) (j : ℕ) :
    frameAverage 2 source j = (source (2 * j) + source (2 * j + 1)) / 2 := by
  unfold frameAverage
  rw [Finset.sum_range_succ, Finset.sum_range_one]
  norm_num
  ring_nf

/-- C1, counterexample: a stereo chunk of 1025 frames (2050 interleaved
samples, one more frame than the ring capacity).  The claim says ring slot
0 must hold the down-mix of mono frame 1, the oldest of the most recent
1024 frames, which for the input k maps to k is (2 + 3) / 2 = 5 / 2.  The
code advances the input pointer by offset = 1 float instead of 1 frame and
stores (1 + 2) / 2 = 3 / 2: the ring does not hold the most recent 1024
down-mixed frames. -/
theorem C1_counterexample :
    writeToBuffer zeroBufQ idBufQ 2050 2 0 = 3 / 2
    ∧ specRecentDownmix idBufQ 1025 2 0 = 5 / 2
    ∧ ((3 : ℚ) / 2 ≠ 5 / 2) := by
  refine ⟨?_, ?_, by norm_num⟩
  · have h : writeToBuffer zeroBufQ idBufQ 2050 2
        = mix zeroBufQ 0 (fun k => idBufQ (1 + k)) 1024 2 := by
      unfold writeToBuffer
      norm_num [AUDIO_BUFFER]
    rw [h, mix_two_apply, if_pos (by omega), frameAverage_two]
    norm_num [idBufQ]
  · unfold specRecentDownmix
    rw [Finset.sum_range_succ, Finset.sum_range_one]
    norm_num [idBufQ, AUDIO_BUFFER]

/-- C1 (amended): for a stereo chunk (the only channel count the addon
passes) of frames >= 1024 mono frames, the ring is fully replaced: slot j
holds the average of the two consecutive input floats starting at float
index (frames - 1024) + 2 j, i.e. the code offsets the interleaved input
by (frames - 1024) floats rather than frames; exactly when the chunk is
exactly 1024 frames long this equals the most recent 1024 down-mixed
frames in temporal order. -/
theorem C1_writeToBuffer_cutover (pcm input : ℕ → ℚ) (frames j : ℕ)
    (h : AUDIO_BUFFER ≤ frames) (hj : j < AUDIO_BUFFER) :
    writeToBuffer pcm input (2 * frames) 2 j
      = (input (frames - AUDIO_BUFFER + 2 * j)
          + input (frames - AUDIO_BUFFER + 2 * j + 1)) / 2
    ∧ (frames = AUDIO_BUFFER →
        writeToBuffer pcm input (2 * frames) 2 j = specRecentDownmix input frames 2 j) := by
  have hdiv : 2 * frames / 2 = frames := Nat.mul_div_cancel_left frames (by norm_num)
  have hmain : writeToBuffer pcm input (2 * frames) 2 j
      = (input (frames - AUDIO_BUFFER + 2 * j)
          + input (frames - AUDIO_BUFFER + 2 * j + 1)) / 2 := by
    unfold writeToBuffer
    rw [hdiv, if_pos h, mix_two_apply,
      if_pos (by constructor <;> [exact Nat.zero_le _; omega]), Nat.sub_zero,
      frameAverage_two, ← Nat.add_assoc]
  refine ⟨hmain, fun hf => ?_⟩
  rw [hmain]
  unfold specRecentDownmix
  rw [Finset.sum_range_succ, Finset.sum_range_one]
  subst hf
  have h0 : AUDIO_BUFFER - AUDIO_BUFFER + 2 * j = 2 * j := by omega
  have h1 : (AUDIO_BUFFER - AUDIO_BUFFER + j) * 2 = 2 * j := by omega
  rw [h0, h1]
  norm_num

/-- C1 witness: a chunk of exactly 1024 stereo frames, ring slot 0. -/
theorem C1_writeToBuffer_cutover_witness :
    AUDIO_BUFFER ≤ 1024 ∧ 0 < AUDIO_BUFFER ∧
    writeToBuffer zeroBufQ idBufQ (2 * 1024) 2 0
      = (idBufQ (1024 - AUDIO_BUFFER + 2 * 0) + idBufQ (1024 - AUDIO_BUFFER + 2 * 0 + 1)) / 2 :=
  ⟨by norm_num [AUDIO_BUFFER], by norm_num [AUDIO_BUFFER],
    (C1_writeToBuffer_cutover zeroBufQ idBufQ 1024 0 (by norm_num [AUDIO_BUFFER])
      (by norm_num [AUDIO_BUFFER])).1⟩

/-- C2, counterexample: with channelCount = 1 and a two-frame chunk whose
samples are 0 and 1, the claim says destination frame 1 receives the mean
of source sample 1, namely 1; but the code writes both frames to index
(j * 1) / 2 = 0, so destination slot 1 keeps its old value 0. -/
theorem C2_counterexample :
    mix zeroBufQ 0 idBufQ 2 1 1 = 0
    ∧ frameAverage 1 idBufQ 1 = 1
    ∧ ((0 : ℚ) ≠ 1) := by
  refine ⟨?_, ?_, by norm_num⟩
  · unfold mix
    rw [List.range_succ, List.range_succ, List.range_zero]
    simp [Function.update, zeroBufQ]
  · unfold frameAverage
    rw [Finset.sum_range_one]
    norm_num [idBufQ]

/-- C2 (amended): the down-mix loop writes the mean of frame j of the
interleaved source to destination index (j * channelCount) / 2 with
integer division, which coincides with the claimed destination frame j
exactly when channelCount = 2, the only channel count AudioData passes:
for channelCount = 2 every destination frame j below the frame count
equals the mean of source samples 2 j and 2 j + 1. -/
theorem C2_mix_downmix (d source : ℕ → ℚ) (frames j : ℕ) (h : j < frames) :
    mix d 0 source frames 2 j = (source (2 * j) + source (2 * j + 1)) / 2 := by
  rw [mix_two_apply, if_pos (by omega), Nat.sub_zero, frameAverage_two]

/-- C2 witness: two stereo frames, destination frame 0. -/
theorem C2_mix_downmix_witness :
    0 < 2 ∧ mix zeroBufQ 0 idBufQ 2 2 0 = (idBufQ (2 * 0) + idBufQ (2 * 0 + 1)) / 2 :=
  ⟨by norm_num, C2_mix_downmix zeroBufQ idBufQ 2 0 (by norm_num)⟩

lemma g_presets_length : g_presets.length = 2 := rfl

lemma stepEvent_probeRuns (s : VisState) (e : Event) :
    (stepEvent s e).probeRuns = s.probeRuns + launchCount s.settingsUseOwnshader e := by
  cases e <;> simp only [stepEvent, launchCount, launch] <;> (try split_ifs) <;> rfl

lemma stepEvent_own (s : VisState) (e : Event) :
    (stepEvent s e).settingsUseOwnshader = s.settingsUseOwnshader := by
  cases e <;> simp only [stepEvent, launch] <;> (try split_ifs) <;> rfl

lemma stepEvent_inv (s : VisState) (e : Event)
    (hinv : s.initialized = true → 1 ≤ s.probeRuns) :
    (stepEvent s e).initialized = true → 1 ≤ (stepEvent s e).probeRuns := by
  cases e <;> simp only [stepEvent, launch] <;> (try split_ifs) <;> simp_all

lemma stepEvent_frames (s : VisState) (e : Event) :
    (stepEvent s e).framesRendered = s.framesRendered
    ∨ (s.initialized = true ∧ (stepEvent s e).probeRuns = s.probeRuns) := by
  cases e <;> simp only [stepEvent, launch] <;> (try split_ifs) <;> simp_all

lemma runEvents_probeRuns_mono (s : VisState) (evs : List Event) :
    s.probeRuns ≤ (runEvents s evs).probeRuns := by
  induction evs generalizing s with
  | nil => exact le_refl _
  | cons e rest ih =>
      calc s.probeRuns ≤ (stepEvent s e).probeRuns := by rw [stepEvent_probeRuns]; omega
      _ ≤ (runEvents (stepEvent s e) rest).probeRuns := ih _
      _ = (runEvents s (e :: rest)).probeRuns := rfl

/-- C5, counterexample: starting the pipeline and then switching preset
once makes DetermineBitsPrecision run twice within a single pipeline
lifetime: Launch, which NextPreset calls again, begins with the probe
every time.  The claim that the probe runs exactly once per lifetime and
is not re-run on preset switches is false. -/
theorem C5_counterexample :
    (runEvents initialState [Event.start, Event.nextPreset]).probeRuns = 2
    ∧ (2 : ℕ) ≠ 1 := by
  constructor
  · rfl
  · norm_num

/-- C5 (amended): the probe runs once per Launch, not once per lifetime:
after any run of host calls the probe count has grown by one for the Start
call and by one more for each NextPreset, PrevPreset or LoadPreset call
(none when the user configured an own shader, which skips the switch
bodies).  It is still true that the probe runs before any user-visible
frame: whenever the pipeline is initialized at least one probe has run,
and whenever a frame has been rendered during the run at least one probe
has run by then. -/
theorem C5_probe_per_launch (s : VisState) (evs : List Event)
    (hinv : s.initialized = true → 1 ≤ s.probeRuns) :
    (runEvents s evs).probeRuns
        = s.probeRuns + (evs.map (launchCount s.settingsUseOwnshader)).sum
    ∧ ((runEvents s evs).initialized = true → 1 ≤ (runEvents s evs).probeRuns)
    ∧ (s.framesRendered < (runEvents s evs).framesRendered
        → 1 ≤ (runEvents s evs).probeRuns) := by
  induction evs generalizing s with
  | nil =>
      refine ⟨by simp [runEvents], hinv, ?_⟩
      intro h
      exact absurd h (lt_irrefl _)
  | cons e rest ih =>
      have hrun : runEvents s (e :: rest) = runEvents (stepEvent s e) rest := rfl
      have hstepinv := stepEvent_inv s e hinv
      obtain ⟨ih1, ih2, ih3⟩ := ih (stepEvent s e) hstepinv
      refine ⟨?_, by rw [hrun]; exact ih2, ?_⟩
      · rw [hrun, ih1, stepEvent_probeRuns, stepEvent_own, List.map_cons, List.sum_cons]
        omega
      · intro hfr
        rw [hrun]
        rcases stepEvent_frames s e with heq | ⟨hini, _⟩
        · exact ih3 (by rw [hrun] at hfr; omega)
        · have h1 : 1 ≤ s.probeRuns := hinv hini
          have h2 : s.probeRuns ≤ (stepEvent s e).probeRuns := by
            rw [stepEvent_probeRuns]; omega
          exact le_trans (le_trans h1 h2) (runEvents_probeRuns_mono _ _)

/-- C5 witness: the state before Start, followed by Start and one frame. -/
theorem C5_probe_per_launch_witness :
    (initialState.initialized = true → 1 ≤ initialState.probeRuns)
    ∧ (runEvents initialState [Event.start, Event.renderFrame]).probeRuns
        = initialState.probeRuns
          + ([Event.start, Event.renderFrame].map
              (launchCount initialState.settingsUseOwnshader)).sum :=
  ⟨by intro h; exact absurd h (by decide),
    (C5_probe_per_launch initialState [Event.start, Event.renderFrame]
      (by intro h; exact absurd h (by decide))).1⟩

lemma cppSizeTMod_range (x : ℤ) (n : ℕ) (hn : 0 < n) :
    0 ≤ cppSizeTMod x n ∧ cppSizeTMod x n < (n : ℤ) := by
  unfold cppSizeTMod
  constructor
  · exact Int.natCast_nonneg _
  · exact_mod_cast Nat.mod_lt _ hn

lemma stepEvent_preset_range (s : VisState) (e : Event)
    (h : 0 ≤ s.currentPreset ∧ s.currentPreset < (g_presets.length : ℤ)) :
    0 ≤ (stepEvent s e).currentPreset
    ∧ (stepEvent s e).currentPreset < (g_presets.length : ℤ) := by
  cases e <;> simp only [stepEvent, launch] <;> (try split_ifs) <;>
    first
      | exact h
      | exact cppSizeTMod_range _ _ (by rw [g_presets_length]; norm_num)

/-- C7: with no custom shader set configured, the preset index stays a
valid index into the catalog: from any in-range index, every sequence of
Start, NextPreset, PrevPreset, LoadPreset, Render and Stop calls leaves
the current preset in range (the C++ modulo against the unsigned
size_t catalog size lands every value, negative ints included, in
0 .. size - 1); and a LoadPreset with any integer argument, in-range or
not, itself produces an in-range index. -/
theorem C7_preset_index_in_range (s : VisState) (evs : List Event)
    (hown : s.settingsUseOwnshader = false)
    (h0 : 0 ≤ s.currentPreset) (h1 : s.currentPreset < (g_presets.length : ℤ)) :
    (0 ≤ (runEvents s evs).currentPreset
      ∧ (runEvents s evs).currentPreset < (g_presets.length : ℤ))
    ∧ ∀ select : ℤ,
        0 ≤ (stepEvent s (Event.loadPreset select)).currentPreset
        ∧ (stepEvent s (Event.loadPreset select)).currentPreset < (g_presets.length : ℤ) := by
  constructor
  · clear hown
    induction evs generalizing s with
    | nil => exact ⟨h0, h1⟩
    | cons e rest ih =>
        have hstep := stepEvent_preset_range s e ⟨h0, h1⟩
        exact ih (stepEvent s e) hstep.1 hstep.2
  · intro select
    simp only [stepEvent, hown, Bool.false_eq_true, if_false, launch]
    exact cppSizeTMod_range _ _ (by rw [g_presets_length]; norm_num)

/-- C7 witness: from the initial state, load the preset with the negative
index -5 and then step backwards once. -/
theorem C7_preset_index_in_range_witness :
    initialState.settingsUseOwnshader = false
    ∧ 0 ≤ initialState.currentPreset
    ∧ initialState.currentPreset < (g_presets.length : ℤ)
    ∧ (0 ≤ (runEvents initialState [Event.loadPreset (-5), Event.prevPreset]).currentPreset
        ∧ (runEvents initialState
            [Event.loadPreset (-5), Event.prevPreset]).currentPreset < (g_presets.length : ℤ)) :=
  ⟨rfl, by norm_num [initialState], by rw [g_presets_length]; norm_num [initialState],
    (C7_preset_index_in_range initialState [Event.loadPreset (-5), Event.prevPreset]
      rfl (by norm_num [initialState])
      (by rw [g_presets_length]; norm_num [initialState])).1⟩

lemma and_mask_eq_mod (x b : ℕ) : x &&& (2 ^ b - 1) = x % 2 ^ b := by
  apply Nat.eq_of_testBit_eq
  intro i
  simp [Nat.testBit_and, Nat.testBit_two_pow_sub_one, Nat.testBit_mod_two_pow,
    Bool.and_comm]

/-- C8: on a frame with a nonzero calibrated bit width b, the nonnegative
elapsed milliseconds are first reduced modulo 2 to the b (the mask with
(1 shl b) - 1 equals that remainder) and only then divided by 1000 into
seconds; and the clamp in Launch guarantees the calibrated width is at
least 13. -/
theorem C8_time_wrap (elapsedMs bits probe : ℕ) (hb : bits ≠ 0) :
    wrapTime elapsedMs bits = elapsedMs % 2 ^ bits
    ∧ shaderTime elapsedMs bits = ((elapsedMs % 2 ^ bits : ℕ) : ℚ) / 1000
    ∧ 13 ≤ launchBitsPrecision probe ∧ launchBitsPrecision probe ≠ 0 := by
  have h1 : wrapTime elapsedMs bits = elapsedMs % 2 ^ bits := by
    unfold wrapTime
    rw [if_pos hb]
    exact and_mask_eq_mod _ _
  refine ⟨h1, ?_, le_max_right _ _, ?_⟩
  · unfold shaderTime
    rw [h1]
  · have : 13 ≤ launchBitsPrecision probe := le_max_right _ _
    omega

/-- C8 witness: 123456 elapsed milliseconds at the minimum width 13. -/
theorem C8_time_wrap_witness :
    (13 : ℕ) ≠ 0
    ∧ wrapTime 123456 13 = 123456 % 2 ^ 13
    ∧ shaderTime 123456 13 = ((123456 % 2 ^ 13 : ℕ) : ℚ) / 1000
    ∧ 13 ≤ launchBitsPrecision 10 ∧ launchBitsPrecision 10 ≠ 0 :=
  ⟨by norm_num, C8_time_wrap 123456 13 10 (by norm_num)⟩

/-- C6, counterexample: no thumbnail file resolves (neither the png nor
the jpg candidate exists) while the previous album texture handle is the
nonzero 5.  The call leaves the slot at 5 and returns true, although no
new texture was loaded: the claim that it returns success only when a new
texture was actually loaded is false. -/
theorem C6_counterexample :
    updateAlbumart ⟨false, false, 0, 0⟩ 5 = (5, true)
    ∧ (5 : ℕ) ≠ 0 := by
  constructor
  · rfl
  · norm_num

/-- C6 (amended): UpdateAlbumart reports success exactly when the album
texture slot is nonzero after the call, not when a texture was loaded by
the call: when no candidate file exists the slot is left unchanged and the
result is success iff the pre-existing handle was nonzero; when the png
candidate exists (or, failing that, the jpg candidate) the slot is
overwritten by that load result, which is 0 on a decode failure, and
failure is reported exactly when that result is 0. -/
theorem C6_updateAlbumart (env : AlbumArtEnv) (slot3 : ℕ) :
    ((env.pngExists = false ∧ env.jpgExists = false) →
        updateAlbumart env slot3 = (slot3, slot3 != 0))
    ∧ (env.pngExists = true →
        updateAlbumart env slot3 = (env.pngLoad, env.pngLoad != 0))
    ∧ ((env.pngExists = false ∧ env.jpgExists = true) →
        updateAlbumart env slot3 = (env.jpgLoad, env.jpgLoad != 0)) := by
  unfold updateAlbumart
  refine ⟨?_, ?_, ?_⟩
  · rintro ⟨h1, h2⟩
    simp [h1, h2]
  · intro h
    simp [h]
  · rintro ⟨h1, h2⟩
    simp [h1, h2]

/-- C6 witness: only the jpg candidate exists and decodes to handle 7. -/
theorem C6_updateAlbumart_witness :
    ((⟨false, true, 0, 7⟩ : AlbumArtEnv).pngExists = false
      ∧ (⟨false, true, 0, 7⟩ : AlbumArtEnv).jpgExists = true)
    ∧ updateAlbumart ⟨false, true, 0, 7⟩ 5 = (7, true) := by
  refine ⟨⟨rfl, rfl⟩, ?_⟩
  have h := (C6_updateAlbumart ⟨false, true, 0, 7⟩ 5).2.2 ⟨rfl, rfl⟩
  simpa using h

lemma cTruncToInt_zero : cTruncToInt 0 = 0 := by
  unfold cTruncToInt
  rw [if_pos le_rfl, Int.floor_zero]

lemma cTruncToInt_mono {x y : ℝ} (h : x ≤ y) : cTruncToInt x ≤ cTruncToInt y := by
  unfold cTruncToInt
  split_ifs with hx hy
  · exact Int.floor_le_floor h
  · exact absurd (le_trans hx h) hy
  · calc ⌈x⌉ ≤ 0 := Int.ceil_le.mpr (by push_cast; linarith)
    _ ≤ ⌊y⌋ := Int.floor_nonneg.mpr (by assumption)
  · exact Int.ceil_le_ceil h

/-- The code byte map written over the decibel value the spec assigns to
the magnitude: the two zero tests coincide, and the constants fold. -/
lemma scaledSpectrumByte_eq (m : ℝ) :
    scaledSpectrumByte m = max (min (cTruncToInt (255 * (specDb m + 100) / 70)) 255) 0 := by
  by_cases h : m = 0
  · subst h
    simp only [scaledSpectrumByte, specDb, linearToDecibels, MIN_DECIBELS, MAX_DECIBELS]
    norm_num
  · simp only [scaledSpectrumByte, specDb, linearToDecibels, MIN_DECIBELS, MAX_DECIBELS,
      if_neg h]
    have harith : (255 : ℝ) * (20 * Real.logb 10 m - -100) * (1 / (-30 - -100))
        = 255 * (20 * Real.logb 10 m + 100) / 70 := by ring
    rw [harith]

/-- Whether the decibel value is clamped to the range -100 .. -30 before
rescaling (as the spec words it) or the rescaled value is truncated and
clamped to 0 .. 255 as an integer (as the code does it) gives the same
byte. -/
lemma trunc_clamp_eq (d : ℝ) :
    max (min (cTruncToInt (255 * (d + 100) / 70)) 255) 0
      = max 0 (min 255 (cTruncToInt ((max (-100) (min (-30) d) - (-100)) * 255 / 70))) := by
  rcases le_or_lt d (-100) with h | h
  · have hmin : min (-30 : ℝ) d = d := min_eq_right (by linarith)
    have hmax : max (-100 : ℝ) d = -100 := max_eq_left h
    rw [hmin, hmax]
    have harg : ((-100 : ℝ) - (-100)) * 255 / 70 = 0 := by norm_num
    rw [harg, cTruncToInt_zero]
    have hs : 255 * (d + 100) / 70 ≤ 0 := by
      apply div_nonpos_of_nonpos_of_nonneg _ (by norm_num)
      nlinarith
    have hct : cTruncToInt (255 * (d + 100) / 70) ≤ 0 := by
      unfold cTruncToInt
      split_ifs with hx
      · have h0 : 255 * (d + 100) / 70 = 0 := le_antisymm hs hx
        rw [h0, Int.floor_zero]
      · exact Int.ceil_le.mpr (by push_cast; linarith)
    have h1 : min (cTruncToInt (255 * (d + 100) / 70)) 255 = cTruncToInt (255 * (d + 100) / 70) :=
      min_eq_left (by omega)
    rw [h1]
    omega
  · rcases le_or_lt d (-30) with h2 | h2
    · have hmin : min (-30 : ℝ) d = d := min_eq_right h2
      have hmax : max (-100 : ℝ) d = d := max_eq_right h.le
      rw [hmin, hmax]
      have harg : (d - (-100)) * 255 / 70 = 255 * (d + 100) / 70 := by ring
      rw [harg, min_comm, max_comm]
    · have hmin : min (-30 : ℝ) d = -30 := min_eq_left h2.le
      rw [hmin]
      have hmax : max (-100 : ℝ) (-30) = -30 := by norm_num
      rw [hmax]
      have harg : ((-30 : ℝ) - (-100)) * 255 / 70 = 255 := by norm_num
      rw [harg]
      have h255 : cTruncToInt 255 = 255 := by
        unfold cTruncToInt
        rw [if_pos (by norm_num)]
        norm_num
      rw [h255]
      have hs : (255 : ℝ) ≤ 255 * (d + 100) / 70 := by
        rw [le_div_iff₀ (by norm_num : (0 : ℝ) < 70)]
        nlinarith
      have hct : (255 : ℤ) ≤ cTruncToInt (255 * (d + 100) / 70) := by
        unfold cTruncToInt
        rw [if_pos (by linarith)]
        exact Int.le_floor.mpr (by push_cast; linarith)
      omega

/-- C3, counterexample: the smoothed magnitude 10 to the -4, whose decibel
value is exactly -80 dB.  The rescaled value is 255 * 20 / 70 = 510 / 7,
about 72.857: rounding to the nearest integer as the claim requires gives
byte 73, but the code casts with (int), truncating toward zero, and stores
72. -/
theorem C3_counterexample :
    scaledSpectrumByte ((10 : ℝ) ^ (-4 : ℤ)) = 72
    ∧ specScaledByteRound ((10 : ℝ) ^ (-4 : ℤ)) = 73
    ∧ (72 : ℤ) ≠ 73 := by
  have hm : (0 : ℝ) < (10 : ℝ) ^ (-4 : ℤ) := zpow_pos (by norm_num) _
  have hne : (10 : ℝ) ^ (-4 : ℤ) ≠ 0 := ne_of_gt hm
  have hlog10 : Real.log 10 ≠ 0 := ne_of_gt (Real.log_pos (by norm_num))
  have hlog : Real.logb 10 ((10 : ℝ) ^ (-4 : ℤ)) = -4 := by
    rw [Real.logb, Real.log_zpow]
    field_simp
  have hdb : specDb ((10 : ℝ) ^ (-4 : ℤ)) = -80 := by
    unfold specDb
    rw [if_neg hne, hlog]
    norm_num
  refine ⟨?_, ?_, by norm_num⟩
  · rw [scaledSpectrumByte_eq, hdb]
    have harg : (255 : ℝ) * (-80 + 100) / 70 = 510 / 7 := by norm_num
    rw [harg]
    have hct : cTruncToInt ((510 : ℝ) / 7) = 72 := by
      unfold cTruncToInt
      rw [if_pos (by norm_num)]
      rw [Int.floor_eq_iff]
      constructor <;> norm_num
    rw [hct]
    omega
  · unfold specScaledByteRound
    rw [hdb]
    have hclamp : max (-100 : ℝ) (min (-30) (-80)) = -80 := by norm_num
    rw [hclamp]
    have harg : ((-80 : ℝ) - (-100)) * 255 / 70 = 510 / 7 := by norm_num
    rw [harg]
    have hr : round ((510 : ℝ) / 7) = 73 := by
      rw [round_eq, Int.floor_eq_iff]
      constructor <;> norm_num
    rw [hr]
    omega

/-- C3 (amended): the spectrum byte for a smoothed magnitude m is obtained
from the decibel value (-100 dB when m is exactly zero, else
20 log10 m), clamped to the range -100 .. -30 dB, linearly rescaled to
0 .. 255, TRUNCATED TOWARD ZERO (the C (int) cast, not rounded to
nearest), and clamped to 0 .. 255; a zero smoothed magnitude still always
yields byte 0. -/
theorem C3_spectrum_byte (m : ℝ) :
    scaledSpectrumByte m = specScaledByteTrunc m ∧ scaledSpectrumByte 0 = 0 := by
  constructor
  · rw [scaledSpectrumByte_eq]
    unfold specScaledByteTrunc
    exact trunc_clamp_eq (specDb m)
  · rw [scaledSpectrumByte_eq]
    have hdb : specDb 0 = -100 := by unfold specDb; rw [if_pos rfl]
    rw [hdb]
    have harg : (255 : ℝ) * (-100 + 100) / 70 = 0 := by norm_num
    rw [harg, cTruncToInt_zero]
    rfl

/-- C9: the composed magnitude-to-byte map is monotone on positive
magnitudes: for 0 < m1 < m2, the byte for m1 is at most the byte for m2
(log10 is monotone, the affine rescale has positive slope, and truncation
toward zero and both clamps are monotone). -/
theorem C9_byte_monotone (m1 m2 : ℝ) (h0 : 0 < m1) (h12 : m1 < m2) :
    scaledSpectrumByte m1 ≤ scaledSpectrumByte m2 := by
  rw [scaledSpectrumByte_eq, scaledSpectrumByte_eq]
  have hd : specDb m1 ≤ specDb m2 := by
    unfold specDb
    rw [if_neg (ne_of_gt h0), if_neg (ne_of_gt (lt_trans h0 h12))]
    have hl := Real.logb_le_logb_of_le (b := 10) (by norm_num) h0 h12.le
    linarith
  have harg : 255 * (specDb m1 + 100) / 70 ≤ 255 * (specDb m2 + 100) / 70 := by
    apply div_le_div_of_nonneg_right _ (by norm_num)
    linarith
  exact max_le_max (min_le_min (cTruncToInt_mono harg) le_rfl) le_rfl

/-- C9 witness: the magnitudes 1 and 2. -/
theorem C9_byte_monotone_witness :
    (0 : ℝ) < 1 ∧ (1 : ℝ) < 2 ∧ scaledSpectrumByte 1 ≤ scaledSpectrumByte 2 :=
  ⟨by norm_num, by norm_num, C9_byte_monotone 1 2 (by norm_num) (by norm_num)⟩

/-- The DFT of a real input has a purely real bin 0: every phase factor at
k = 0 is exp 0 = 1, so the bin is the plain sum of the real inputs. -/
lemma dft_zero_im (x : ℕ → ℝ) (N : ℕ) : (dft x N 0).im = 0 := by
  unfold dft
  simp [Complex.im_sum]

set_option maxRecDepth 10000 in
/-- Clearing the imaginary part of bin 0 is the identity on the DFT of a
real input. -/
lemma audioDataBins_zero (pcm : ℕ → ℝ) :
    audioDataBins pcm 0 = dft (fun i => blackmanWindow (pcm i) i AUDIO_BUFFER) AUDIO_BUFFER 0 := by
  unfold audioDataBins
  rw [if_pos rfl]
  rw [Complex.ext_iff]
  exact ⟨rfl, (dft_zero_im _ _).symm⟩

lemma audioDataBins_ne (pcm : ℕ → ℝ) (k : ℕ) (hk : k ≠ 0) :
    audioDataBins pcm k = dft (fun i => blackmanWindow (pcm i) i AUDIO_BUFFER) AUDIO_BUFFER k := by
  unfold audioDataBins
  rw [if_neg hk]

/-- The square root the code takes of re * re + im * im is the complex
modulus. -/
lemma sqrt_re_im_eq_abs (z : ℂ) :
    Real.sqrt (z.re * z.re + z.im * z.im) = Complex.abs z := by
  rw [Complex.abs_apply, Complex.normSq_apply]

/-- C4: for every bin k below N / 2, the smoothed value AudioData stores
is c * previous[k] + (1 - c) * magnitude[k] with c = 0.5 and magnitude[k]
the complex modulus of transform bin k divided by the transform size
N = 1024.  Clearing the imaginary part of bin 0 (out[0].i = 0) does not
change its modulus, because the DFT of the real windowed input already has
a purely real bin 0. -/
theorem C4_smoothing (prev pcm : ℕ → ℝ) (k : ℕ) (hk : k < NUM_BANDS) :
    audioDataSmoothed prev pcm k
      = 0.5 * prev k
        + (1 - 0.5) * (Complex.abs
            (dft (fun i => blackmanWindow (pcm i) i AUDIO_BUFFER) AUDIO_BUFFER k)
            / (AUDIO_BUFFER : ℝ)) := by
  unfold audioDataSmoothed smoothingOverTime
  by_cases h0 : k = 0
  · subst h0
    rw [audioDataBins_zero, sqrt_re_im_eq_abs]
  · rw [audioDataBins_ne pcm k h0, sqrt_re_im_eq_abs]

/-- C4 witness: bin 0 of the all-zero ring against the all-zero previous
spectrum. -/
theorem C4_smoothing_witness :
    0 < NUM_BANDS
    ∧ audioDataSmoothed zeroBufR zeroBufR 0
        = 0.5 * zeroBufR 0
          + (1 - 0.5) * (Complex.abs (dft zeroWindowed AUDIO_BUFFER 0) / (AUDIO_BUFFER : ℝ)) :=
  ⟨by norm_num [NUM_BANDS, AUDIO_BUFFER],
    C4_smoothing zeroBufR zeroBufR 0 (by norm_num [NUM_BANDS, AUDIO_BUFFER])⟩

/-- C10: after Launch of any catalog preset, a channel whose tag is 99
keeps no newly assigned file path, has its audio flag set, is created from
the analysis byte buffer (it is channel 0, which Launch always creates
from m_audioData), and is refreshed from the analysis buffer whenever an
upload is pending; and no channel texture of the launched preset is
created from the offscreen framebuffer attachment, which only the display
pass samples. -/
theorem C10_framebuffer_tag_is_audio (p : Preset) (hp : p ∈ g_presets)
    (prev : Fin 4 → ShaderTexture) (i : Fin 4) (h99 : p.channel i = 99) :
    ((launchShaderTextures p prev i).audio = true)
    ∧ ((launchShaderTextures p prev i).texture = (prev i).texture)
    ∧ launchChannelTexSource (launchShaderTextures p prev) i = TexSource.audioData
    ∧ renderUploadsAudio (launchShaderTextures p prev) i = true
    ∧ ∀ j : Fin 4,
        launchChannelTexSource (launchShaderTextures p prev) j ≠ TexSource.framebufferAttachment := by
  have hi : i = 0 := by
    have hmem : p = presetKodi ∨ p = presetAlbum := by
      simpa [g_presets] using hp
    rcases hmem with rfl | rfl <;> fin_cases i <;>
      first
        | rfl
        | exact absurd h99 (by decide)
  have hbody : launchShaderTextures p prev i = { prev i with audio := true } := by
    unfold launchShaderTextures
    rw [h99]
    norm_num [g_fileTextures]
  refine ⟨by rw [hbody], by rw [hbody], ?_, by unfold renderUploadsAudio; rw [hbody], ?_⟩
  · subst hi
    unfold launchChannelTexSource
    rw [if_pos rfl]
  · intro j
    unfold launchChannelTexSource
    split_ifs <;> simp

/-- C10 witness: the Kodi preset, channel 0, from the all-clear previous
descriptor state. -/
theorem C10_framebuffer_tag_is_audio_witness :
    presetKodi ∈ g_presets
    ∧ presetKodi.channel 0 = 99
    ∧ ((launchShaderTextures presetKodi clearShaderTextures 0).audio = true)
    ∧ ((launchShaderTextures presetKodi clearShaderTextures 0).texture
        = (clearShaderTextures 0).texture)
    ∧ launchChannelTexSource (launchShaderTextures presetKodi clearShaderTextures) 0
        = TexSource.audioData :=
  have hp : presetKodi ∈ g_presets := List.mem_cons_self _ _
  have h99 : presetKodi.channel 0 = 99 := by decide
  have h := C10_framebuffer_tag_is_audio presetKodi hp clearShaderTextures 0 h99
  ⟨hp, h99, h.1, h.2.1, h.2.2.1⟩

end VisMatrix
